import Mathlib

/-!
Verification of the FinQuant portfolio aggregation and statistics engine
(`src/portfolio.py`) against its natural-language specification.

The Python code is shallowly embedded over exact rationals:
* a pandas "NaN" value is modelled as `Option.none` over `ℚ`;
* a Python `None` cache slot is the outer `Option` of a cache field;
* Python exceptions are modelled by `PyError` (the names follow the Python
  exception classes actually raised: `ZeroDivisionError`, `ValueError`,
  `TypeError`, `AttributeError`);
* a volatility value is encoded by the radicand of its square root, i.e.
  a stored value `some q` stands for the real number `Real.sqrt q`; this
  keeps every definition executable while `np.sqrt` itself is irrational.

Modelling notes traced from the source:
* `Portfolio.addFund` appends the metadata of the fund `Series` (object dtype,
  since it mixes strings and numbers) to `self.portfolio`; hence the `FMV`
  column has object dtype and `self.portfolio.FMV/total` divides Python
  scalars elementwise, raising `ZeroDivisionError` when `total == 0` and the
  column is non-empty.  On an empty portfolio `self.portfolio.FMV` raises
  `AttributeError` (no such column on an empty `DataFrame`).
* `DataFrame.insert` raises `ValueError` when the column name already
  exists, and when the value length does not match the existing index; both
  happen after `funds.update` and the metadata append already mutated state.
* `DataFrame.cov()` never raises; with fewer than two observations its
  entries are NaN (divisor N-1), and it is Bessel-corrected otherwise.
* `np.sum(means * weights)` in `weightedMean` multiplies the means array
  (one entry per ROI column) with the weights Series (one entry per
  metadata row) under numpy broadcasting: equal lengths multiply
  positionally, a length-1 operand broadcasts, and any other mismatch
  raises `ValueError`.  `np.dot` in `weightedStd` does not broadcast and
  raises `ValueError` on any shape mismatch.  Both mismatches are only
  reachable when the two tables are out of step, i.e. after a caught
  `addFund` exception.
-/

inductive PyError where
  | zeroDivisionError
  | valueError
  | typeError
  | attributeError
  deriving DecidableEq, Repr

deriving instance DecidableEq for Except

/-- One row of investment metadata (the labels the source documents:
Name, Year, Strategy, CCY, FMV). -/
structure FundInfo where
  Name : String
  Year : Int
  Strategy : String
  CCY : String
  FMV : ℚ
  deriving DecidableEq, Repr

/-- `Fund(investmentinfo, roi_data)`: metadata record plus the daily ROI
series (the `ROI` column of `roi_data`). -/
structure Fund where
  investmentinfo : FundInfo
  roi_data : List ℚ
  deriving DecidableEq, Repr

/-- `self.name = investmentinfo.Name` in `Fund.__init__`. -/
def Fund.name (f : Fund) : String := f.investmentinfo.Name

/-- `fund.investmentinfo.FMV`, the fair market value used for weighting. -/
def Fund.fmv (f : Fund) : ℚ := f.investmentinfo.FMV

/-- Update of a Python dict represented as an insertion-ordered
association list: overwriting a present key keeps its position, a fresh
key is appended at the end. -/
def dictUpdate (d : List (String × Fund)) (k : String) (v : Fund) :
    List (String × Fund) :=
  match d with
  | [] => [(k, v)]
  | (k1, v1) :: rest =>
      if k1 = k then (k, v) :: rest else (k1, v1) :: dictUpdate rest k v

/-- Python dict lookup `d[k]`, with `none` standing for a `KeyError`. -/
def dictLookup (d : List (String × Fund)) (k : String) : Option Fund :=
  match d with
  | [] => none
  | (k1, v1) :: rest => if k1 = k then some v1 else dictLookup rest k

/-- The `Portfolio` instance state: the metadata table `self.portfolio`
(rows in append order), the `funds` dict, the ROI table `pf_roi_data`
(named columns in insertion order), and the five cache slots initialised
to `None` in `__init__`. -/
structure Portfolio where
  name : String
  ref_year : Int
  portfolio : List FundInfo
  funds : List (String × Fund)
  pf_roi_data : List (String × List ℚ)
  pf_means : Option (List (Option ℚ))
  pf_weights : Option (List ℚ)
  expectedRoi : Option (Option ℚ)
  volatility : Option (Option ℚ)
  covPf : Option (List (List (Option ℚ)))
  deriving DecidableEq, Repr

/-- `Portfolio.__init__(name, ref_year)`: empty tables, all caches `None`. -/
def Portfolio.init (name : String) (ref_year : Int) : Portfolio :=
  { name := name, ref_year := ref_year, portfolio := [], funds := [],
    pf_roi_data := [], pf_means := none, pf_weights := none,
    expectedRoi := none, volatility := none, covPf := none }

/-- Row count of the ROI table: the length of the index, i.e. of the first
column (all columns share it once inserted). -/
def Portfolio.nrowsRoi (p : Portfolio) : Nat :=
  match p.pf_roi_data with
  | [] => 0
  | c :: _ => c.2.length

/-- `Portfolio.addFund(fund)`: update the `funds` dict, append the metadata
row, then `__addRoiData` inserts the ROI series as a new rightmost column.
`DataFrame.insert` raises `ValueError` if the column name already exists or
if the series length mismatches the existing index; the dict update and the
metadata append have already happened by then, so the partially mutated
state is returned alongside the error. -/
def Portfolio.addFund (p : Portfolio) (f : Fund) : Portfolio × Option PyError :=
  let p1 : Portfolio :=
    { p with funds := dictUpdate p.funds f.name f,
             portfolio := p.portfolio ++ [f.investmentinfo] }
  if f.name ∈ p1.pf_roi_data.map Prod.fst then
    (p1, some PyError.valueError)
  else if p1.pf_roi_data ≠ [] ∧ f.roi_data.length ≠ p1.nrowsRoi then
    (p1, some PyError.valueError)
  else
    ({ p1 with pf_roi_data := p1.pf_roi_data ++ [(f.name, f.roi_data)] }, none)

/-- `Portfolio.getFund(name)`: dict lookup (`none` models `KeyError`). -/
def Portfolio.getFund (p : Portfolio) (name : String) : Option Fund :=
  dictLookup p.funds name

/-- Sequential `addFund` calls; a raised exception aborts the remainder of
the sequence, as an uncaught Python exception would. -/
def buildFrom (p : Portfolio) (fs : List Fund) : Portfolio × Option PyError :=
  fs.foldl
    (fun st f =>
      match st.2 with
      | some _ => st
      | none => st.1.addFund f)
    (p, none)

/-- Column mean as pandas computes it: NaN (`none`) on an empty column. -/
def meanPy (xs : List ℚ) : Option ℚ :=
  if xs.length = 0 then none else some (xs.sum / xs.length)

/-- NaN-propagating addition of float values (`NaN + x = NaN`). -/
def addN : Option ℚ → Option ℚ → Option ℚ
  | some a, some b => some (a + b)
  | _, _ => none

/-- Elementwise product of two equal-length float vectors followed by
`np.sum`: NaN-propagating, positionally aligned.  This is the aligned
core both of `means * weights` and of one row of `np.dot`. -/
def dotNaN (v : List (Option ℚ)) (w : List ℚ) : Option ℚ :=
  ((v.zip w).map (fun mw => mw.1.map (fun m => m * mw.2))).foldr
    addN (some 0)

/-- `weightedMean(means, weights) = np.sum(means * weights)` with numpy
broadcasting semantics for the elementwise product of the `means` array
(length = number of ROI columns) with the `weights` Series (length =
number of metadata rows): equal lengths multiply positionally; a
length-1 operand broadcasts across the other; any other length mismatch
raises `ValueError` (operands could not be broadcast together). -/
def weightedMean (means : List (Option ℚ)) (weights : List ℚ) :
    Except PyError (Option ℚ) :=
  if means.length = weights.length then
    Except.ok (dotNaN means weights)
  else if means.length = 1 then
    Except.ok (dotNaN (weights.map (fun _ => means.headD none)) weights)
  else if weights.length = 1 then
    Except.ok (dotNaN means (means.map (fun _ => weights.headD 0)))
  else Except.error PyError.valueError

/-- Pairwise sample covariance of two equal-length columns as
`DataFrame.cov()` computes it: Bessel-corrected (divisor N-1), NaN
(`none`) when fewer than two paired observations exist. -/
def covPair (xs ys : List ℚ) : Option ℚ :=
  let n : Nat := (xs.zip ys).length
  if n < 2 then none
  else
    some ((((xs.zip ys).map
        (fun q => (q.1 - xs.sum / xs.length) * (q.2 - ys.sum / ys.length))).sum)
      / ((n : ℚ) - 1))

/-- Bessel-corrected sample variance of a series (the square of its sample
standard deviation); NaN (`none`) on fewer than two observations. -/
def sampleVar (xs : List ℚ) : Option ℚ :=
  if xs.length < 2 then none
  else
    some ((xs.map (fun x => (x - xs.sum / xs.length) ^ 2)).sum
      / ((xs.length : ℚ) - 1))

/-- `weightedStd(cov_matrix, weights) =
np.sqrt(np.dot(weights.T, np.dot(cov_matrix, weights)))`, returned in
the radicand encoding: the result `some q` stands for `Real.sqrt q`.
`np.dot` does not broadcast: it raises `ValueError` unless the k-by-k
covariance matrix and the length-n weights satisfy k = n (checked here as
rectangularity row-length = n together with row-count = n).  `np.sqrt`
of a negative float is NaN (`none`), and NaN entries propagate. -/
def weightedStd (cov_matrix : List (List (Option ℚ))) (weights : List ℚ) :
    Except PyError (Option ℚ) :=
  if cov_matrix.length = weights.length
      ∧ ∀ row ∈ cov_matrix, row.length = weights.length then
    match dotNaN (cov_matrix.map (fun row => dotNaN row weights)) weights with
    | none => Except.ok none
    | some q => Except.ok (if q < 0 then none else some q)
  else Except.error PyError.valueError

/-- `SharpeRatio(exproi, riskfreerate, volatility) =
(exproi - riskfreerate)/float(volatility)`, evaluated on possibly-`None`
cached arguments, with `volatility` in the radicand encoding.  Python
raises `TypeError` on `None - r` (and on `float(None)`), and
`ZeroDivisionError` on a zero float divisor even for a NaN numerator.  A
returned value `some (a, q)` stands for the real number `a / Real.sqrt q`. -/
def SharpeRatio (exproi : Option (Option ℚ)) (riskfreerate : ℚ)
    (volatility : Option (Option ℚ)) : Except PyError (Option (ℚ × ℚ)) :=
  match exproi with
  | none => Except.error PyError.typeError
  | some e =>
      match volatility with
      | none => Except.error PyError.typeError
      | some v =>
          match v with
          | none => Except.ok none
          | some q =>
              if q = 0 then Except.error PyError.zeroDivisionError
              else
                match e with
                | none => Except.ok none
                | some a => Except.ok (some (a - riskfreerate, q))

/-- The `FMV` column of the metadata table. -/
def Portfolio.fmvColumn (p : Portfolio) : List ℚ :=
  p.portfolio.map FundInfo.FMV

/-- `Portfolio.compPfMeans`: per-column mean of the ROI table, cached in
`pf_means`. -/
def Portfolio.compPfMeans (p : Portfolio) : List (Option ℚ) × Portfolio :=
  let pf_means := p.pf_roi_data.map (fun c => meanPy c.2)
  (pf_means, { p with pf_means := some pf_means })

/-- `Portfolio.compPfWeights`: `self.portfolio.FMV/total`.  On an empty
portfolio the attribute access `self.portfolio.FMV` raises
`AttributeError`; on a zero total the elementwise division of the
object-dtype column raises `ZeroDivisionError`; otherwise the weights are
cached and returned in metadata-row order. -/
def Portfolio.compPfWeights (p : Portfolio) : Portfolio × Except PyError (List ℚ) :=
  if p.portfolio = [] then (p, Except.error PyError.attributeError)
  else
    let total := p.fmvColumn.sum
    if total = 0 then (p, Except.error PyError.zeroDivisionError)
    else
      let pf_weights := p.portfolio.map (fun r => r.FMV / total)
      ({ p with pf_weights := some pf_weights }, Except.ok pf_weights)

/-- `Portfolio.compPfExpectedRoi`: recomputes means, then weights, then
caches and returns their weighted mean.  When the weight computation or
`weightedMean` raises, the exception propagates after the earlier steps
already refreshed their caches (`pf_means`, and for a `weightedMean`
failure also `pf_weights`), while `expectedRoi` stays unset. -/
def Portfolio.compPfExpectedRoi (p : Portfolio) :
    Portfolio × Except PyError (Option ℚ) :=
  let mp := p.compPfMeans
  match mp.2.compPfWeights with
  | (p2, Except.error e) => (p2, Except.error e)
  | (p2, Except.ok pf_weights) =>
      match weightedMean mp.1 pf_weights with
      | Except.error e => (p2, Except.error e)
      | Except.ok expectedRoi =>
          ({ p2 with expectedRoi := some expectedRoi }, Except.ok expectedRoi)

/-- `Portfolio.compCovPf`: `self.pf_roi_data.cov()`, the pairwise sample
covariance matrix over the ROI columns, cached in `covPf`. -/
def Portfolio.compCovPf (p : Portfolio) :
    List (List (Option ℚ)) × Portfolio :=
  let covPf := p.pf_roi_data.map
    (fun ci => p.pf_roi_data.map (fun cj => covPair ci.2 cj.2))
  (covPf, { p with covPf := some covPf })

/-- `Portfolio.compPfVolatility`: weights, then the covariance matrix, then
`weightedStd`; the result (radicand encoding) is cached in `volatility`.
A shape mismatch inside `weightedStd` propagates after the covariance
cache was already refreshed, leaving `volatility` unset. -/
def Portfolio.compPfVolatility (p : Portfolio) :
    Portfolio × Except PyError (Option ℚ) :=
  match p.compPfWeights with
  | (p1, Except.error e) => (p1, Except.error e)
  | (p1, Except.ok pf_weights) =>
      let cp := p1.compCovPf
      match weightedStd cp.1 pf_weights with
      | Except.error e => (cp.2, Except.error e)
      | Except.ok volatility =>
          ({ cp.2 with volatility := some volatility }, Except.ok volatility)

/-- `Portfolio.compSharpe(riskfreerate)`: reads the two cache slots and
hands them to `SharpeRatio`; it performs no computation of its own and
does not mutate the portfolio. -/
def Portfolio.compSharpe (p : Portfolio) (riskfreerate : ℚ) :
    Except PyError (Option (ℚ × ℚ)) :=
  SharpeRatio p.expectedRoi riskfreerate p.volatility

/-- Invariant of the aggregate: dict keys are unique, ROI column names are
unique, and every ROI column name is a key of `funds`. -/
def PfInvariant (p : Portfolio) : Prop :=
  (p.funds.map Prod.fst).Nodup ∧ (p.pf_roi_data.map Prod.fst).Nodup ∧
    ∀ c ∈ p.pf_roi_data.map Prod.fst, c ∈ p.funds.map Prod.fst

-- Helper lemmas ------------------------------------------------------------

lemma sum_map_div {α : Type} (l : List α) (g : α → ℚ) (t : ℚ) :
    (l.map (fun x => g x / t)).sum = (l.map g).sum / t := by
  induction l with
  | nil => simp
  | cons a l ih => simp [ih, add_div]

/-- C1: on a portfolio whose funds all have nonnegative FMV and whose FMV
total is strictly positive, `compPfWeights` returns one weight per
metadata row, in row order, each equal to the FMV of that fund divided by the
total, and the weights sum to 1. -/
theorem compPfWeights_spec (p : Portfolio)
    (_hpos : ∀ r ∈ p.portfolio, 0 ≤ r.FMV)
    (hsum : 0 < p.fmvColumn.sum) :
    (p.compPfWeights).2
        = Except.ok (p.portfolio.map (fun r => r.FMV / p.fmvColumn.sum))
      ∧ (p.portfolio.map (fun r => r.FMV / p.fmvColumn.sum)).sum = 1
      ∧ (p.portfolio.map (fun r => r.FMV / p.fmvColumn.sum)).length
          = p.portfolio.length := by
  have hne : p.portfolio ≠ [] := by
    intro h
    rw [Portfolio.fmvColumn, h] at hsum
    simp at hsum
  have htot : p.fmvColumn.sum ≠ 0 := ne_of_gt hsum
  refine ⟨?_, ?_, by simp⟩
  · rw [Portfolio.compPfWeights, if_neg hne, if_neg htot]
  · have := sum_map_div p.portfolio FundInfo.FMV p.fmvColumn.sum
    rw [this]
    rw [Portfolio.fmvColumn] at htot ⊢
    exact div_self htot

/-- A concrete two-fund portfolio state used as a witness input. -/
def pW1 : Portfolio :=
  { Portfolio.init "P" 2020 with
      portfolio := [⟨"A", 2019, "EQ", "USD", 100⟩,
                    ⟨"B", 2018, "FI", "USD", 300⟩] }

/-- Witness for `compPfWeights_spec` at a concrete two-fund portfolio. -/
theorem compPfWeights_spec_witness :
    (∀ r ∈ pW1.portfolio, 0 ≤ r.FMV)
    ∧ (0 : ℚ) < pW1.fmvColumn.sum
    ∧ (pW1.compPfWeights).2 = Except.ok [1/4, 3/4] := by
  have h1 : ∀ r ∈ pW1.portfolio, 0 ≤ r.FMV := by
    intro r hr
    simp only [pW1, Portfolio.init, List.mem_cons, List.not_mem_nil, or_false] at hr
    rcases hr with h | h <;> rw [h] <;> norm_num
  have h2 : (0 : ℚ) < pW1.fmvColumn.sum := by
    norm_num [pW1, Portfolio.fmvColumn, Portfolio.init]
  refine ⟨h1, h2, ?_⟩
  have h := compPfWeights_spec pW1 h1 h2
  rw [h.1]
  norm_num [pW1, Portfolio.fmvColumn, Portfolio.init]

/-- Branch-free characterization of `addFund` used by the later proofs. -/
lemma addFund_eq (p : Portfolio) (f : Fund) :
    p.addFund f =
      if f.name ∈ p.pf_roi_data.map Prod.fst then
        ({ p with funds := dictUpdate p.funds f.name f,
                  portfolio := p.portfolio ++ [f.investmentinfo] },
         some PyError.valueError)
      else if p.pf_roi_data ≠ [] ∧ f.roi_data.length ≠ p.nrowsRoi then
        ({ p with funds := dictUpdate p.funds f.name f,
                  portfolio := p.portfolio ++ [f.investmentinfo] },
         some PyError.valueError)
      else
        ({ p with funds := dictUpdate p.funds f.name f,
                  portfolio := p.portfolio ++ [f.investmentinfo],
                  pf_roi_data := p.pf_roi_data ++ [(f.name, f.roi_data)] },
         none) := rfl

/-- A portfolio with a negative FMV next to a positive one; its FMV sum is
1, so the precondition of the weights claim fails without a zero sum. -/
def pNeg : Portfolio :=
  { Portfolio.init "P" 2020 with
      portfolio := [⟨"A", 2019, "EQ", "USD", -1⟩,
                    ⟨"B", 2018, "FI", "USD", 2⟩] }

/-- C2 counterexample: on a portfolio violating the claimed precondition
(a negative FMV), `compPfWeights` does not raise; it returns the weight
vector `[-1, 2]`. -/
theorem compPfWeights_no_error_on_negative_fmv :
    (pNeg.compPfWeights).2 = Except.ok [-1, 2] := by
  rw [Portfolio.compPfWeights]
  rw [if_neg (by simp [pNeg, Portfolio.init])]
  norm_num [pNeg, Portfolio.init, Portfolio.fmvColumn]

/-- C2 amended: `compPfWeights` raises `ZeroDivisionError` exactly when
the portfolio is non-empty and the FMV sum is zero; on an empty portfolio
it raises `AttributeError` (missing FMV column); for a nonzero sum it
returns the weight vector even when some FMV is negative. -/
theorem compPfWeights_error_characterization (p : Portfolio) :
    ((p.compPfWeights).2 = Except.error PyError.zeroDivisionError
        ↔ p.portfolio ≠ [] ∧ p.fmvColumn.sum = 0)
    ∧ (p.portfolio = [] →
        (p.compPfWeights).2 = Except.error PyError.attributeError)
    ∧ (p.fmvColumn.sum ≠ 0 → p.portfolio ≠ [] →
        (p.compPfWeights).2
          = Except.ok (p.portfolio.map (fun r => r.FMV / p.fmvColumn.sum))) := by
  rw [Portfolio.compPfWeights]
  by_cases h1 : p.portfolio = []
  · simp [h1]
  · by_cases h2 : p.fmvColumn.sum = 0
    · simp [h1, h2]
    · simp [h1, h2]

/-- Witness for `compPfWeights_error_characterization`: at `pNeg` the sum
is nonzero and the portfolio non-empty, so the ok branch fires. -/
theorem compPfWeights_error_characterization_witness :
    (pNeg.compPfWeights).2
      = Except.ok (pNeg.portfolio.map (fun r => r.FMV / pNeg.fmvColumn.sum)) :=
  (compPfWeights_error_characterization pNeg).2.2
    (by norm_num [pNeg, Portfolio.init, Portfolio.fmvColumn])
    (by simp [pNeg, Portfolio.init])

/-- C3: with either cache slot still `None`, `compSharpe` fails for every
risk-free rate (the spec calls this condition `PreconditionError`; the
Python runtime surfaces it as the `TypeError` of `None - r` resp.
`float(None)`), and `compSharpe` is a pure read of the two cache slots:
portfolios with the same cached `expectedRoi` and `volatility` get the
same result, so it never triggers their computation. -/
theorem compSharpe_unset_cache_errors (p : Portfolio) (r : ℚ)
    (h : p.expectedRoi = none ∨ p.volatility = none) :
    p.compSharpe r = Except.error PyError.typeError
    ∧ ∀ q : Portfolio, q.expectedRoi = p.expectedRoi →
        q.volatility = p.volatility → q.compSharpe r = p.compSharpe r := by
  constructor
  · rcases h with h | h
    · rw [Portfolio.compSharpe, h]; rfl
    · rw [Portfolio.compSharpe, h]
      cases p.expectedRoi <;> rfl
  · intro q h1 h2
    rw [Portfolio.compSharpe, Portfolio.compSharpe, h1, h2]

/-- Witness for `compSharpe_unset_cache_errors` on a freshly initialised
portfolio, both of whose caches are `None`. -/
theorem compSharpe_unset_cache_errors_witness :
    ((Portfolio.init "S" 2020).expectedRoi = none
      ∨ (Portfolio.init "S" 2020).volatility = none)
    ∧ (Portfolio.init "S" 2020).compSharpe 0 = Except.error PyError.typeError :=
  ⟨Or.inl rfl,
   (compSharpe_unset_cache_errors (Portfolio.init "S" 2020) 0 (Or.inl rfl)).1⟩

-- Dictionary lemmas --------------------------------------------------------

lemma dictLookup_dictUpdate_self (d : List (String × Fund)) (k : String)
    (v : Fund) : dictLookup (dictUpdate d k v) k = some v := by
  induction d with
  | nil => simp [dictUpdate, dictLookup]
  | cons a d ih =>
    obtain ⟨k1, v1⟩ := a
    by_cases h : k1 = k
    · simp [dictUpdate, dictLookup, h]
    · simp [dictUpdate, dictLookup, h, ih]

lemma keys_dictUpdate (d : List (String × Fund)) (k : String) (v : Fund) :
    (dictUpdate d k v).map Prod.fst
      = if k ∈ d.map Prod.fst then d.map Prod.fst
        else d.map Prod.fst ++ [k] := by
  induction d with
  | nil => simp [dictUpdate]
  | cons a d ih =>
    obtain ⟨k1, v1⟩ := a
    by_cases h : k1 = k
    · simp [dictUpdate, h]
    · have hne : ¬ k = k1 := fun hh => h hh.symm
      by_cases h2 : k ∈ d.map Prod.fst
      · simp [dictUpdate, h, ih, hne, h2]
      · simp [dictUpdate, h, ih, hne, h2]

lemma nodup_keys_dictUpdate (d : List (String × Fund)) (k : String) (v : Fund)
    (h : (d.map Prod.fst).Nodup) :
    ((dictUpdate d k v).map Prod.fst).Nodup := by
  rw [keys_dictUpdate]
  split_ifs with hk
  · exact h
  · simp [List.nodup_append, h, hk]

lemma mem_keys_dictUpdate (d : List (String × Fund)) (k : String) (v : Fund)
    (x : String) (hx : x ∈ d.map Prod.fst) :
    x ∈ (dictUpdate d k v).map Prod.fst := by
  rw [keys_dictUpdate]
  split_ifs <;> simp [hx]

lemma self_mem_keys_dictUpdate (d : List (String × Fund)) (k : String)
    (v : Fund) : k ∈ (dictUpdate d k v).map Prod.fst := by
  rw [keys_dictUpdate]
  split_ifs with h <;> simp [h]

/-- One `addFund` call preserves the aggregate invariant, whether or not
the column insert raises. -/
lemma addFund_invariant (p : Portfolio) (f : Fund) (h : PfInvariant p) :
    PfInvariant (p.addFund f).1 := by
  obtain ⟨h1, h2, h3⟩ := h
  rw [addFund_eq]
  split_ifs with hc hlen
  · exact ⟨nodup_keys_dictUpdate _ _ _ h1, h2,
      fun c hcmem => mem_keys_dictUpdate _ _ _ _ (h3 c hcmem)⟩
  · exact ⟨nodup_keys_dictUpdate _ _ _ h1, h2,
      fun c hcmem => mem_keys_dictUpdate _ _ _ _ (h3 c hcmem)⟩
  · refine ⟨nodup_keys_dictUpdate _ _ _ h1, ?_, ?_⟩
    · simp only [List.map_append, List.map_cons, List.map_nil]
      simp [List.nodup_append, h2, hc]
    · intro c hcmem
      simp only [List.map_append, List.map_cons, List.map_nil,
        List.mem_append, List.mem_cons, List.not_mem_nil, or_false] at hcmem
      rcases hcmem with hcmem | hcmem
      · exact mem_keys_dictUpdate _ _ _ _ (h3 c hcmem)
      · rw [hcmem]; exact self_mem_keys_dictUpdate _ _ _

lemma buildFrom_stall (q : Portfolio) (e : PyError) (fs : List Fund) :
    fs.foldl
      (fun st f =>
        match st.2 with
        | some _ => st
        | none => st.1.addFund f)
      (q, some e) = (q, some e) := by
  induction fs with
  | nil => rfl
  | cons f fs ih => rw [List.foldl_cons]; exact ih

lemma buildFrom_cons (p : Portfolio) (f : Fund) (fs : List Fund) :
    buildFrom p (f :: fs)
      = match p.addFund f with
        | (p1, none) => buildFrom p1 fs
        | (p1, some e) => (p1, some e) := by
  rw [buildFrom, List.foldl_cons]
  rcases h : p.addFund f with ⟨p1, e?⟩
  cases e? with
  | none => rfl
  | some e => exact buildFrom_stall p1 e fs

/-- Any sequence of `addFund` calls preserves the aggregate invariant. -/
lemma buildFrom_invariant (fs : List Fund) :
    ∀ p : Portfolio, PfInvariant p → PfInvariant (buildFrom p fs).1 := by
  induction fs with
  | nil => intro p h; exact h
  | cons f fs ih =>
    intro p h
    rw [buildFrom_cons]
    rcases hadd : p.addFund f with ⟨p1, e?⟩
    have h1 : PfInvariant p1 := by
      have := addFund_invariant p f h
      rw [hadd] at this
      exact this
    cases e? with
    | none => exact ih p1 h1
    | some e => exact h1

/-- C8: an `addFund` call with an already-present name overwrites that
dict entry (last write wins), and after every sequence of `addFund` calls
the fund names in `funds` stay unique, the returns-table column names stay
unique, and every column corresponds to a key of `funds` — also across the
`ValueError` that the duplicate column insert raises. -/
theorem addFund_overwrite_invariants (p : Portfolio) (f : Fund)
    (fs : List Fund) (hinv : PfInvariant p) :
    dictLookup ((p.addFund f).1.funds) f.name = some f
    ∧ PfInvariant ((p.addFund f).1)
    ∧ PfInvariant ((buildFrom p fs).1) := by
  refine ⟨?_, addFund_invariant p f hinv, buildFrom_invariant fs p hinv⟩
  have hfunds : (p.addFund f).1.funds = dictUpdate p.funds f.name f := by
    rw [addFund_eq]
    split_ifs <;> rfl
  rw [hfunds, dictLookup_dictUpdate_self]

/-- A concrete fund used in witnesses. -/
def fA : Fund := ⟨⟨"A", 2019, "EQ", "USD", 100⟩, [1, 2, 3]⟩

/-- A second fund with the same name as `fA` but different data. -/
def fA2 : Fund := ⟨⟨"A", 2017, "FI", "GBP", 50⟩, [4, 5, 6]⟩

/-- A fund with a fresh name. -/
def fB : Fund := ⟨⟨"B", 2018, "FI", "USD", 300⟩, [0, 1, -1]⟩

/-- Witness for `addFund_overwrite_invariants`: a fresh portfolio, a fund,
and a sequence containing a duplicate name. -/
theorem addFund_overwrite_invariants_witness :
    PfInvariant (Portfolio.init "W8" 2020)
    ∧ dictLookup (((Portfolio.init "W8" 2020).addFund fA).1.funds) fA.name
        = some fA
    ∧ PfInvariant ((buildFrom (Portfolio.init "W8" 2020) [fA, fB, fA2]).1) := by
  have hinv : PfInvariant (Portfolio.init "W8" 2020) := by
    refine ⟨?_, ?_, ?_⟩ <;> simp [Portfolio.init]
  have h := addFund_overwrite_invariants (Portfolio.init "W8" 2020) fA
    [fA, fB, fA2] hinv
  exact ⟨hinv, h.1, h.2.2⟩

/-- C10: adding a fund whose name is not yet a key of `funds` and then
looking it up by name returns exactly the fund that was added. -/
theorem addFund_getFund_roundtrip (p : Portfolio) (f : Fund)
    (_hfresh : dictLookup p.funds f.name = none) :
    ((p.addFund f).1).getFund f.name = some f := by
  have hfunds : (p.addFund f).1.funds = dictUpdate p.funds f.name f := by
    rw [addFund_eq]
    split_ifs <;> rfl
  rw [Portfolio.getFund, hfunds, dictLookup_dictUpdate_self]

/-- Witness for `addFund_getFund_roundtrip` on a fresh portfolio. -/
theorem addFund_getFund_roundtrip_witness :
    dictLookup (Portfolio.init "W10" 2021).funds fA.name = none
    ∧ (((Portfolio.init "W10" 2021).addFund fA).1).getFund fA.name = some fA :=
  ⟨rfl, addFund_getFund_roundtrip (Portfolio.init "W10" 2021) fA rfl⟩

-- Covariance matrix lemmas --------------------------------------------------

lemma map_getD_get? {α β : Type} (g : α → β) (d : β) (l : List α) (i : Nat) :
    (l.map g).getD i d = ((l[i]?).map g).getD d := by
  rw [List.getD_eq_getElem?_getD, List.getElem?_map]

lemma covPair_none_of_short_left (xs ys : List ℚ) (h : xs.length < 2) :
    covPair xs ys = none := by
  have hlt : (xs.zip ys).length < 2 :=
    lt_of_le_of_lt (by rw [List.length_zip xs ys]; exact min_le_left _ _) h
  simp only [covPair]
  rw [if_pos hlt]

lemma covPair_none_of_short_right (xs ys : List ℚ) (h : ys.length < 2) :
    covPair xs ys = none := by
  have hlt : (xs.zip ys).length < 2 :=
    lt_of_le_of_lt (by rw [List.length_zip xs ys]; exact min_le_right _ _) h
  simp only [covPair]
  rw [if_pos hlt]

lemma covPair_comm (xs ys : List ℚ) : covPair xs ys = covPair ys xs := by
  have hz : ys.zip xs = (xs.zip ys).map Prod.swap := (List.zip_swap xs ys).symm
  have hfun : (fun q : ℚ × ℚ =>
        ((q.swap).1 - ys.sum / ys.length) * ((q.swap).2 - xs.sum / xs.length))
      = fun q : ℚ × ℚ =>
        (q.1 - xs.sum / xs.length) * (q.2 - ys.sum / ys.length) := by
    funext q
    simp only [Prod.fst_swap, Prod.snd_swap]
    ring
  simp only [covPair, hz, List.length_map, List.map_map, Function.comp_def,
    Prod.fst_swap, Prod.snd_swap]
  have hfun2 : (fun q : ℚ × ℚ =>
        (q.2 - ys.sum / ys.length) * (q.1 - xs.sum / xs.length))
      = fun q : ℚ × ℚ =>
        (q.1 - xs.sum / xs.length) * (q.2 - ys.sum / ys.length) := by
    funext q; ring
  rw [hfun2]

/-- Entry `(i, j)` of `compCovPf` is the pairwise sample covariance of
columns `i` and `j` (out-of-range indices give the NaN default on both
sides). -/
lemma compCovPf_entry (p : Portfolio) (i j : Nat) :
    ((p.compCovPf).1.getD i []).getD j none
      = covPair ((p.pf_roi_data.getD i ("", [])).2)
          ((p.pf_roi_data.getD j ("", [])).2) := by
  have h1 : (p.compCovPf).1
      = p.pf_roi_data.map
          (fun ci => p.pf_roi_data.map (fun cj => covPair ci.2 cj.2)) := rfl
  rw [h1, map_getD_get?, List.getD_eq_getElem?_getD p.pf_roi_data i,
    List.getD_eq_getElem?_getD p.pf_roi_data j]
  cases hci : p.pf_roi_data[i]? with
  | none =>
    cases hcj : p.pf_roi_data[j]? with
    | none =>
      simp [hci, hcj, covPair_none_of_short_left ([] : List ℚ) _ (by norm_num)]
    | some b =>
      simp [hci, hcj, covPair_none_of_short_left ([] : List ℚ) _ (by norm_num)]
  | some a =>
    cases hcj : p.pf_roi_data[j]? with
    | none =>
      simp [hci, hcj, map_getD_get?, covPair_none_of_short_right _ ([] : List ℚ)
        (by norm_num)]
    | some b =>
      simp [hci, hcj, map_getD_get?]

/-- C5: the matrix returned by `compCovPf` is square (one row and one
column per ROI-table column), each entry is the Bessel-corrected pairwise
sample covariance of the corresponding columns, and the matrix is
symmetric. -/
theorem compCovPf_symmetric_square (p : Portfolio) :
    (p.compCovPf).1.length = p.pf_roi_data.length
    ∧ (p.compCovPf).1.map List.length
        = List.replicate p.pf_roi_data.length p.pf_roi_data.length
    ∧ ∀ i j : Nat,
        ((p.compCovPf).1.getD i []).getD j none
          = covPair ((p.pf_roi_data.getD i ("", [])).2)
              ((p.pf_roi_data.getD j ("", [])).2)
        ∧ ((p.compCovPf).1.getD i []).getD j none
          = ((p.compCovPf).1.getD j []).getD i none := by
  have h1 : (p.compCovPf).1
      = p.pf_roi_data.map
          (fun ci => p.pf_roi_data.map (fun cj => covPair ci.2 cj.2)) := rfl
  refine ⟨by rw [h1]; simp, ?_, ?_⟩
  · rw [h1, List.map_map]
    refine List.eq_replicate_iff.mpr ⟨by simp, ?_⟩
    intro b hb
    simp only [List.mem_map, Function.comp_apply] at hb
    obtain ⟨ci, _, hb⟩ := hb
    rw [← hb, List.length_map]
  · intro i j
    refine ⟨compCovPf_entry p i j, ?_⟩
    rw [compCovPf_entry p i j, compCovPf_entry p j i, covPair_comm]

/-- A portfolio whose ROI table has a single row. -/
def pOneRow : Portfolio :=
  { Portfolio.init "P" 2020 with
      portfolio := [⟨"A", 2019, "EQ", "USD", 100⟩],
      pf_roi_data := [("A", [5])] }

/-- C7 counterexample: on a one-row ROI table `compCovPf` does not fail;
it returns the 1x1 matrix whose entry is NaN. -/
theorem compCovPf_returns_nan_matrix_one_row :
    (pOneRow.compCovPf).1 = [[none]] := by
  simp [pOneRow, Portfolio.init, Portfolio.compCovPf, covPair]

/-- C7 amended: when every ROI column has fewer than two observations,
`compCovPf` returns a matrix all of whose entries are NaN (`none`); no
exception is raised. -/
theorem compCovPf_small_sample_nan (p : Portfolio)
    (hrows : ∀ c ∈ p.pf_roi_data, c.2.length < 2) :
    ∀ i j : Nat, ((p.compCovPf).1.getD i []).getD j none = none := by
  intro i j
  rw [compCovPf_entry p i j, List.getD_eq_getElem?_getD]
  cases hci : p.pf_roi_data[i]? with
  | none =>
    exact covPair_none_of_short_left _ _ (by norm_num)
  | some a =>
    have ha : a ∈ p.pf_roi_data := List.getElem?_mem hci
    exact covPair_none_of_short_left _ _ (hrows a ha)

/-- Witness for `compCovPf_small_sample_nan` at the one-row portfolio. -/
theorem compCovPf_small_sample_nan_witness :
    (∀ c ∈ pOneRow.pf_roi_data, c.2.length < 2)
    ∧ ∀ i j : Nat, ((pOneRow.compCovPf).1.getD i []).getD j none = none := by
  have h : ∀ c ∈ pOneRow.pf_roi_data, c.2.length < 2 := by
    intro c hc
    simp only [pOneRow, Portfolio.init, List.mem_cons, List.not_mem_nil,
      or_false] at hc
    rw [hc]
    norm_num
  exact ⟨h, compCovPf_small_sample_nan pOneRow h⟩

-- Volatility lemmas ---------------------------------------------------------

/-- Successful branch of `compPfWeights` in closed form. -/
lemma compPfWeights_ok (p : Portfolio) (hne : p.portfolio ≠ [])
    (htot : p.fmvColumn.sum ≠ 0) :
    p.compPfWeights
      = ({ p with
            pf_weights :=
              some (p.portfolio.map (fun r => r.FMV / p.fmvColumn.sum)) },
         Except.ok (p.portfolio.map (fun r => r.FMV / p.fmvColumn.sum))) := by
  simp only [Portfolio.compPfWeights]
  rw [if_neg hne, if_neg htot]

lemma zip_self (xs : List ℚ) : xs.zip xs = xs.map (fun x => (x, x)) := by
  induction xs with
  | nil => rfl
  | cons a l ih => simp [List.zip_cons_cons, ih]

/-- The diagonal of the covariance matrix is the sample variance. -/
lemma covPair_self (xs : List ℚ) : covPair xs xs = sampleVar xs := by
  have hf : ((fun q : ℚ × ℚ =>
        (q.1 - xs.sum / xs.length) * (q.2 - xs.sum / xs.length))
      ∘ (fun x : ℚ => (x, x)))
      = fun x : ℚ => (x - xs.sum / xs.length) ^ 2 := by
    funext x
    simp only [Function.comp_apply]
    ring
  simp only [covPair, sampleVar, zip_self, List.map_map, List.length_map, hf]

lemma sampleVar_nonneg (xs : List ℚ) (q : ℚ) (h : sampleVar xs = some q) :
    0 ≤ q := by
  rw [sampleVar] at h
  by_cases hlen : xs.length < 2
  · rw [if_pos hlen] at h
    exact absurd h (by simp)
  · rw [if_neg hlen] at h
    have hq : ((xs.map (fun x => (x - xs.sum / xs.length) ^ 2)).sum
        / ((xs.length : ℚ) - 1)) = q := Option.some.inj h
    rw [← hq]
    apply div_nonneg
    · apply List.sum_nonneg
      intro x hx
      simp only [List.mem_map] at hx
      obtain ⟨y, _, hy⟩ := hx
      rw [← hy]
      positivity
    · have h2 : (2 : ℚ) ≤ (xs.length : ℚ) := by
        exact_mod_cast Nat.not_lt.mp hlen
      linarith

lemma dotNaN_single (c : Option ℚ) : dotNaN [c] [1] = c := by
  cases c <;> simp [dotNaN, addN]

/-- At equal lengths, `weightedMean` is the positional product-sum. -/
lemma weightedMean_aligned (means : List (Option ℚ)) (weights : List ℚ)
    (h : means.length = weights.length) :
    weightedMean means weights = Except.ok (dotNaN means weights) := by
  rw [weightedMean, if_pos h]

/-- C6: for a single-fund portfolio (one metadata row with nonzero FMV,
one ROI column), the weight is `FMV/FMV = 1` and `compPfVolatility`
returns the sample standard deviation of that fund: in the radicand
encoding, exactly the Bessel-corrected sample variance of its series, so
the real-valued volatility is its square root, the sample standard
deviation. -/
theorem compPfVolatility_single_fund (p : Portfolio) (info : FundInfo)
    (nm : String) (xs : List ℚ)
    (hmeta : p.portfolio = [info]) (hfmv : info.FMV ≠ 0)
    (hroi : p.pf_roi_data = [(nm, xs)]) :
    (p.compPfVolatility).2 = Except.ok (sampleVar xs) := by
  have hne : p.portfolio ≠ [] := by rw [hmeta]; simp
  have htot : p.fmvColumn.sum = info.FMV := by
    rw [Portfolio.fmvColumn, hmeta]; simp
  have hwlist : p.portfolio.map (fun r => r.FMV / p.fmvColumn.sum) = [1] := by
    rw [hmeta, htot]
    simp [div_self hfmv]
  have hw := compPfWeights_ok p hne (by rw [htot]; exact hfmv)
  rw [hwlist] at hw
  have hcov : (({ p with pf_weights := some [1] } : Portfolio).compCovPf).1
      = [[sampleVar xs]] := by
    simp only [Portfolio.compCovPf]
    show ({ p with pf_weights := some [1] } : Portfolio).pf_roi_data.map _
        = _
    have hroi1 : ({ p with pf_weights := some [1] } : Portfolio).pf_roi_data
        = [(nm, xs)] := hroi
    rw [hroi1]
    simp [covPair_self]
  have hws : weightedStd [[sampleVar xs]] [1] = Except.ok (sampleVar xs) := by
    have hguard : ([[sampleVar xs]] : List (List (Option ℚ))).length
          = ([(1 : ℚ)] : List ℚ).length
        ∧ ∀ row ∈ ([[sampleVar xs]] : List (List (Option ℚ))),
            row.length = ([(1 : ℚ)] : List ℚ).length := by
      refine ⟨rfl, ?_⟩
      intro row hrow
      simp only [List.mem_cons, List.not_mem_nil, or_false] at hrow
      rw [hrow]
      rfl
    rw [weightedStd, if_pos hguard, List.map_cons, List.map_nil,
      dotNaN_single, dotNaN_single]
    cases hsv : sampleVar xs with
    | none => rfl
    | some q =>
      have hq := sampleVar_nonneg xs q hsv
      show Except.ok (if q < 0 then none else some q) = Except.ok (some q)
      rw [if_neg (not_lt.mpr hq)]
  rw [Portfolio.compPfVolatility, hw]
  show (match weightedStd
        (({ p with pf_weights := some [1] } : Portfolio).compCovPf).1 [1] with
      | Except.error e =>
          ((({ p with pf_weights := some [1] } : Portfolio).compCovPf).2,
           (Except.error e : Except PyError (Option ℚ)))
      | Except.ok volatility =>
          ({ (({ p with pf_weights := some [1] } : Portfolio).compCovPf).2 with
              volatility := some volatility },
           Except.ok volatility)).2
    = Except.ok (sampleVar xs)
  rw [hcov, hws]

/-- A concrete single-fund portfolio state used as a witness input. -/
def pSingle : Portfolio :=
  { Portfolio.init "P" 2020 with
      portfolio := [⟨"A", 2019, "EQ", "USD", 100⟩],
      pf_roi_data := [("A", [1, 2, 3])] }

/-- Witness for `compPfVolatility_single_fund` at a concrete single-fund
portfolio with series `[1, 2, 3]` (sample variance 1). -/
theorem compPfVolatility_single_fund_witness :
    pSingle.portfolio = [⟨"A", 2019, "EQ", "USD", 100⟩]
    ∧ ((⟨"A", 2019, "EQ", "USD", 100⟩ : FundInfo).FMV ≠ 0)
    ∧ pSingle.pf_roi_data = [("A", [1, 2, 3])]
    ∧ (pSingle.compPfVolatility).2 = Except.ok (sampleVar [1, 2, 3]) := by
  have hfmv : ((⟨"A", 2019, "EQ", "USD", 100⟩ : FundInfo).FMV ≠ 0) := by
    norm_num
  exact ⟨rfl, hfmv, rfl,
    compPfVolatility_single_fund pSingle ⟨"A", 2019, "EQ", "USD", 100⟩
      "A" [1, 2, 3] rfl hfmv rfl⟩

-- Expected-ROI cache lemmas -------------------------------------------------

/-- Zero-total branch of `compPfWeights` in closed form. -/
lemma compPfWeights_zeroDiv (p : Portfolio) (hne : p.portfolio ≠ [])
    (htot : p.fmvColumn.sum = 0) :
    p.compPfWeights = (p, Except.error PyError.zeroDivisionError) := by
  simp only [Portfolio.compPfWeights]
  rw [if_neg hne, if_pos htot]

/-- Error branch of `compPfExpectedRoi`: the means cache is refreshed, the
exception propagates, and nothing else changes. -/
lemma compPfExpectedRoi_error (p : Portfolio) (hne : p.portfolio ≠ [])
    (htot : p.fmvColumn.sum = 0) :
    p.compPfExpectedRoi
      = ({ p with
            pf_means := some (p.pf_roi_data.map (fun c => meanPy c.2)) },
         Except.error PyError.zeroDivisionError) := by
  simp only [Portfolio.compPfExpectedRoi]
  have h1 : (p.compPfMeans).2.compPfWeights
      = ((p.compPfMeans).2, Except.error PyError.zeroDivisionError) :=
    compPfWeights_zeroDiv (p.compPfMeans).2 hne htot
  rw [h1]
  rfl

/-- Success branch of `compPfExpectedRoi` in closed form, on states whose
metadata table and ROI table are aligned (one column per row, as every
uninterrupted `addFund` history leaves them): all three caches are
overwritten with values recomputed from the current tables. -/
lemma compPfExpectedRoi_ok (p : Portfolio) (hne : p.portfolio ≠ [])
    (htot : p.fmvColumn.sum ≠ 0)
    (halign : p.pf_roi_data.length = p.portfolio.length) :
    p.compPfExpectedRoi
      = ({ p with
            pf_means := some (p.pf_roi_data.map (fun c => meanPy c.2)),
            pf_weights :=
              some (p.portfolio.map (fun r => r.FMV / p.fmvColumn.sum)),
            expectedRoi :=
              some (dotNaN (p.pf_roi_data.map (fun c => meanPy c.2))
                (p.portfolio.map (fun r => r.FMV / p.fmvColumn.sum))) },
         Except.ok (dotNaN (p.pf_roi_data.map (fun c => meanPy c.2))
            (p.portfolio.map (fun r => r.FMV / p.fmvColumn.sum)))) := by
  simp only [Portfolio.compPfExpectedRoi]
  have h1 : (p.compPfMeans).2.compPfWeights
      = ({ (p.compPfMeans).2 with
            pf_weights :=
              some (p.portfolio.map (fun r => r.FMV / p.fmvColumn.sum)) },
         Except.ok (p.portfolio.map (fun r => r.FMV / p.fmvColumn.sum))) :=
    compPfWeights_ok (p.compPfMeans).2 hne htot
  have h2 : weightedMean (p.compPfMeans).1
        (p.portfolio.map (fun r => r.FMV / p.fmvColumn.sum))
      = Except.ok (dotNaN (p.pf_roi_data.map (fun c => meanPy c.2))
          (p.portfolio.map (fun r => r.FMV / p.fmvColumn.sum))) := by
    apply weightedMean_aligned
    show (p.pf_roi_data.map (fun c => meanPy c.2)).length = _
    rw [List.length_map, List.length_map, halign]
  simp only [h1, h2]
  rfl

/-- A single-fund portfolio with FMV 0 and stale cache contents. -/
def pStale : Portfolio :=
  { Portfolio.init "P" 2020 with
      portfolio := [⟨"A", 2019, "EQ", "USD", 0⟩],
      pf_roi_data := [("A", [1, 2])],
      pf_weights := some [99],
      expectedRoi := some (some 5) }

/-- C9 counterexample: on a portfolio whose FMV total is zero,
`compPfExpectedRoi` raises before reaching the weight assignment: the
`pf_means` cache is refreshed but the stale `pf_weights` and `expectedRoi`
caches survive, so the claimed unconditional overwrite does not happen. -/
theorem compPfExpectedRoi_stale_weights_on_error :
    (pStale.compPfExpectedRoi).2 = Except.error PyError.zeroDivisionError
    ∧ (pStale.compPfExpectedRoi).1.pf_weights = some [99]
    ∧ (pStale.compPfExpectedRoi).1.expectedRoi = some (some 5)
    ∧ (pStale.compPfExpectedRoi).1.pf_means = some [some (3/2)] := by
  have h := compPfExpectedRoi_error pStale (by simp [pStale, Portfolio.init])
    (by norm_num [pStale, Portfolio.init, Portfolio.fmvColumn])
  rw [h]
  refine ⟨rfl, rfl, rfl, ?_⟩
  show some [meanPy [1, 2]] = some [some (3/2)]
  norm_num [meanPy]

/-- C9 amended: whenever the FMV total is nonzero and the two tables are
aligned (one ROI column per metadata row, as after every uninterrupted
`addFund` history), `compPfExpectedRoi` recomputes the per-fund means and
the weights from the current tables only (the stated values mention no
cache field, so no previously cached value is read), overwrites the
`pf_means` and `pf_weights` caches with those fresh values, sets the
`expectedRoi` cache to their positional product-sum, returns that value,
and leaves the tables, the funds dict and the other two caches unchanged.
(On a zero FMV total only `pf_means` is refreshed and `ZeroDivisionError`
propagates; on misaligned tables `weightedMean` follows numpy
broadcasting or raises `ValueError`, leaving `expectedRoi` unset.) -/
theorem compPfExpectedRoi_recomputes_caches (p : Portfolio)
    (htot : p.fmvColumn.sum ≠ 0)
    (halign : p.pf_roi_data.length = p.portfolio.length) :
    (p.compPfExpectedRoi).1.pf_means
        = some (p.pf_roi_data.map (fun c => meanPy c.2))
    ∧ (p.compPfExpectedRoi).1.pf_weights
        = some (p.portfolio.map (fun r => r.FMV / p.fmvColumn.sum))
    ∧ (p.compPfExpectedRoi).1.expectedRoi
        = some (dotNaN (p.pf_roi_data.map (fun c => meanPy c.2))
            (p.portfolio.map (fun r => r.FMV / p.fmvColumn.sum)))
    ∧ (p.compPfExpectedRoi).2
        = Except.ok (dotNaN (p.pf_roi_data.map (fun c => meanPy c.2))
            (p.portfolio.map (fun r => r.FMV / p.fmvColumn.sum)))
    ∧ (p.compPfExpectedRoi).2
        = weightedMean (p.pf_roi_data.map (fun c => meanPy c.2))
            (p.portfolio.map (fun r => r.FMV / p.fmvColumn.sum))
    ∧ (p.compPfExpectedRoi).1.portfolio = p.portfolio
    ∧ (p.compPfExpectedRoi).1.pf_roi_data = p.pf_roi_data
    ∧ (p.compPfExpectedRoi).1.funds = p.funds
    ∧ (p.compPfExpectedRoi).1.volatility = p.volatility
    ∧ (p.compPfExpectedRoi).1.covPf = p.covPf := by
  have hne : p.portfolio ≠ [] := by
    intro h
    apply htot
    rw [Portfolio.fmvColumn, h]
    simp
  have hwm : weightedMean (p.pf_roi_data.map (fun c => meanPy c.2))
        (p.portfolio.map (fun r => r.FMV / p.fmvColumn.sum))
      = Except.ok (dotNaN (p.pf_roi_data.map (fun c => meanPy c.2))
          (p.portfolio.map (fun r => r.FMV / p.fmvColumn.sum))) := by
    apply weightedMean_aligned
    rw [List.length_map, List.length_map, halign]
  rw [compPfExpectedRoi_ok p hne htot halign, hwm]
  exact ⟨rfl, rfl, rfl, rfl, rfl, rfl, rfl, rfl, rfl, rfl⟩

/-- A concrete two-fund portfolio with aligned tables, used as a witness
input. -/
def pW9 : Portfolio :=
  { Portfolio.init "P" 2020 with
      portfolio := [⟨"A", 2019, "EQ", "USD", 100⟩,
                    ⟨"B", 2018, "FI", "USD", 300⟩],
      pf_roi_data := [("A", [1, 2, 3]), ("B", [0, 1, -1])] }

/-- Witness for `compPfExpectedRoi_recomputes_caches` at the concrete
aligned two-fund portfolio `pW9`. -/
theorem compPfExpectedRoi_recomputes_caches_witness :
    pW9.fmvColumn.sum ≠ 0
    ∧ pW9.pf_roi_data.length = pW9.portfolio.length
    ∧ (pW9.compPfExpectedRoi).1.pf_weights
        = some (pW9.portfolio.map (fun r => r.FMV / pW9.fmvColumn.sum))
    ∧ (pW9.compPfExpectedRoi).1.volatility = pW9.volatility := by
  have h : pW9.fmvColumn.sum ≠ 0 := by
    norm_num [pW9, Portfolio.fmvColumn, Portfolio.init]
  have halign : pW9.pf_roi_data.length = pW9.portfolio.length := rfl
  have hthm := compPfExpectedRoi_recomputes_caches pW9 h halign
  exact ⟨h, halign, hthm.2.1, hthm.2.2.2.2.2.2.2.2.1⟩

-- Order-invariance machinery ------------------------------------------------

/-- Success branch of `addFund` in closed form. -/
lemma addFund_success (p : Portfolio) (f : Fund)
    (hname : f.name ∉ p.pf_roi_data.map Prod.fst)
    (hlen : p.pf_roi_data = [] ∨ f.roi_data.length = p.nrowsRoi) :
    p.addFund f
      = ({ p with
            funds := dictUpdate p.funds f.name f,
            portfolio := p.portfolio ++ [f.investmentinfo],
            pf_roi_data := p.pf_roi_data ++ [(f.name, f.roi_data)] },
         none) := by
  have h2 : ¬(p.pf_roi_data ≠ [] ∧ f.roi_data.length ≠ p.nrowsRoi) := by
    rcases hlen with h | h
    · intro hc; exact hc.1 h
    · intro hc; exact hc.2 h
  rw [addFund_eq, if_neg hname, if_neg h2]

/-- A sequence of `addFund` calls with pairwise fresh names and uniform
series length `L` succeeds and appends, in call order, one metadata row
and one named ROI column per fund. -/
lemma buildFrom_ok (L : Nat) :
    ∀ (fs : List Fund) (p : Portfolio),
      (∀ f ∈ fs, f.name ∉ p.pf_roi_data.map Prod.fst) →
      (fs.map Fund.name).Nodup →
      (∀ f ∈ fs, f.roi_data.length = L) →
      (p.pf_roi_data = [] ∨ p.nrowsRoi = L) →
      (buildFrom p fs).2 = none
      ∧ (buildFrom p fs).1.pf_roi_data
          = p.pf_roi_data ++ fs.map (fun f => (f.name, f.roi_data))
      ∧ (buildFrom p fs).1.portfolio
          = p.portfolio ++ fs.map Fund.investmentinfo := by
  intro fs
  induction fs with
  | nil =>
    intro p _ _ _ _
    exact ⟨rfl, by simp [buildFrom], by simp [buildFrom]⟩
  | cons f fs ih =>
    intro p hdisj hnd hlenf hrows
    have hname : f.name ∉ p.pf_roi_data.map Prod.fst := hdisj f (by simp)
    have hlen1 : p.pf_roi_data = [] ∨ f.roi_data.length = p.nrowsRoi := by
      rcases hrows with h | h
      · exact Or.inl h
      · exact Or.inr (by rw [hlenf f (by simp), h])
    have hadd := addFund_success p f hname hlen1
    rw [buildFrom_cons, hadd]
    have hfresh : f.name ∉ fs.map Fund.name := by
      have := hnd
      simp only [List.map_cons, List.nodup_cons] at this
      exact this.1
    have ihres := ih ({ p with
        funds := dictUpdate p.funds f.name f,
        portfolio := p.portfolio ++ [f.investmentinfo],
        pf_roi_data := p.pf_roi_data ++ [(f.name, f.roi_data)] })
      (by
        intro g hg
        simp only [List.map_append, List.map_cons, List.map_nil,
          List.mem_append, List.mem_cons, List.not_mem_nil, or_false]
        rintro (hc | hc)
        · exact hdisj g (List.mem_cons_of_mem f hg) hc
        · apply hfresh
          rw [← hc]
          exact List.mem_map_of_mem Fund.name hg)
      (by
        have := hnd
        simp only [List.map_cons, List.nodup_cons] at this
        exact this.2)
      (fun g hg => hlenf g (List.mem_cons_of_mem f hg))
      (by
        right
        rcases hq : p.pf_roi_data with _ | ⟨c, cs⟩
        · show ((f.name, f.roi_data)).2.length = L
          exact hlenf f (by simp)
        · show c.2.length = L
          rcases hrows with h | h
          · rw [hq] at h; exact absurd h (by simp)
          · rw [Portfolio.nrowsRoi, hq] at h; exact h)
    refine ⟨ihres.1, ?_, ?_⟩
    · rw [ihres.2.1]
      simp
    · rw [ihres.2.2]
      simp

lemma addN_left_comm (a b c : Option ℚ) :
    addN a (addN b c) = addN b (addN a c) := by
  cases a <;> cases b <;> cases c <;> simp [addN] <;> ring

lemma foldr_addN_perm (b : Option ℚ) {l1 l2 : List (Option ℚ)}
    (h : l1.Perm l2) : l1.foldr addN b = l2.foldr addN b := by
  induction h with
  | nil => rfl
  | cons x _ ih => simp only [List.foldr_cons, ih]
  | swap x y l => exact addN_left_comm y x _
  | trans _ _ ih1 ih2 => rw [ih1, ih2]

lemma dotNaN_map (fs : List Fund) (g : Fund → Option ℚ)
    (h : Fund → ℚ) :
    dotNaN (fs.map g) (fs.map h)
      = (fs.map (fun f => (g f).map (fun m => m * h f))).foldr addN
          (some 0) := by
  rw [dotNaN, List.zip_map' g h fs, List.map_map]
  rfl

/-- Empty-portfolio branch of `compPfWeights` in closed form. -/
lemma compPfWeights_empty (p : Portfolio) (h : p.portfolio = []) :
    p.compPfWeights = (p, Except.error PyError.attributeError) := by
  simp only [Portfolio.compPfWeights]
  rw [if_pos h]

lemma compPfExpectedRoi_empty (p : Portfolio) (h : p.portfolio = []) :
    (p.compPfExpectedRoi).2 = Except.error PyError.attributeError := by
  simp only [Portfolio.compPfExpectedRoi]
  rw [compPfWeights_empty (p.compPfMeans).2 h]

/-- The value of `compPfExpectedRoi` on a portfolio whose tables were
built from the fund list `fs`, as one fold over `fs`. -/
lemma compPfExpectedRoi_value (fs : List Fund) (p : Portfolio)
    (hroi : p.pf_roi_data = fs.map (fun f => (f.name, f.roi_data)))
    (hmeta : p.portfolio = fs.map Fund.investmentinfo) :
    (p.compPfExpectedRoi).2
      = if fs = [] then Except.error PyError.attributeError
        else if (fs.map Fund.fmv).sum = 0 then
          Except.error PyError.zeroDivisionError
        else
          Except.ok ((fs.map (fun f =>
              (meanPy f.roi_data).map
                (fun m => m * (f.fmv / (fs.map Fund.fmv).sum)))).foldr addN
            (some 0)) := by
  have hfmv : p.fmvColumn = fs.map Fund.fmv := by
    rw [Portfolio.fmvColumn, hmeta, List.map_map]
    rfl
  by_cases h0 : fs = []
  · rw [if_pos h0]
    apply compPfExpectedRoi_empty
    rw [hmeta, h0]
    rfl
  · rw [if_neg h0]
    have hne : p.portfolio ≠ [] := by
      rw [hmeta]
      intro hc
      exact h0 (List.map_eq_nil_iff.mp hc)
    by_cases htot : (fs.map Fund.fmv).sum = 0
    · rw [if_pos htot]
      rw [compPfExpectedRoi_error p hne (by rw [hfmv]; exact htot)]
    · rw [if_neg htot]
      have halign : p.pf_roi_data.length = p.portfolio.length := by
        rw [hroi, hmeta, List.length_map, List.length_map]
      rw [compPfExpectedRoi_ok p hne (by rw [hfmv]; exact htot) halign]
      rw [hroi, hmeta, List.map_map, List.map_map, hfmv]
      have h1 : ((fun c : String × List ℚ => meanPy c.2)
            ∘ (fun f : Fund => (f.name, f.roi_data)))
          = fun f : Fund => meanPy f.roi_data := rfl
      have h2 : ((fun r : FundInfo => r.FMV / (fs.map Fund.fmv).sum)
            ∘ Fund.investmentinfo)
          = fun f : Fund => f.fmv / (fs.map Fund.fmv).sum := rfl
      rw [h1, h2, dotNaN_map]

/-- C4: building a portfolio from the same funds in any order gives the
same `compPfExpectedRoi` outcome (the per-fund mean/weight products are
summed over the same multiset), and whenever the weights computation
succeeds the expected ROI is exactly the dot product of the freshly
computed per-fund means and those weights. -/
theorem compPfExpectedRoi_order_invariant (fs1 fs2 : List Fund) (L : Nat)
    (nm : String) (y : Int)
    (hperm : fs1.Perm fs2)
    (hnd : (fs1.map Fund.name).Nodup)
    (hlen : ∀ f ∈ fs1, f.roi_data.length = L) :
    ((buildFrom (Portfolio.init nm y) fs1).1.compPfExpectedRoi).2
      = ((buildFrom (Portfolio.init nm y) fs2).1.compPfExpectedRoi).2
    ∧ ∀ (p : Portfolio) (w : List ℚ),
        (p.compPfWeights).2 = Except.ok w →
        (p.compPfExpectedRoi).2 = weightedMean (p.compPfMeans).1 w
        ∧ (p.pf_roi_data.length = p.portfolio.length →
            (p.compPfExpectedRoi).2
              = Except.ok (dotNaN (p.compPfMeans).1 w)) := by
  constructor
  · have hnd2 : (fs2.map Fund.name).Nodup := (hperm.map Fund.name).nodup hnd
    have hlen2 : ∀ f ∈ fs2, f.roi_data.length = L := by
      intro f hf
      exact hlen f (hperm.mem_iff.mpr hf)
    have b1 := buildFrom_ok L fs1 (Portfolio.init nm y) (by simp [Portfolio.init])
      hnd hlen (Or.inl rfl)
    have b2 := buildFrom_ok L fs2 (Portfolio.init nm y) (by simp [Portfolio.init])
      hnd2 hlen2 (Or.inl rfl)
    have v1 := compPfExpectedRoi_value fs1
      (buildFrom (Portfolio.init nm y) fs1).1
      (by rw [b1.2.1]; simp [Portfolio.init])
      (by rw [b1.2.2]; simp [Portfolio.init])
    have v2 := compPfExpectedRoi_value fs2
      (buildFrom (Portfolio.init nm y) fs2).1
      (by rw [b2.2.1]; simp [Portfolio.init])
      (by rw [b2.2.2]; simp [Portfolio.init])
    rw [v1, v2]
    have hsum : (fs1.map Fund.fmv).sum = (fs2.map Fund.fmv).sum :=
      (hperm.map Fund.fmv).sum_eq
    by_cases h0 : fs1 = []
    · have h02 : fs2 = [] := by
        rw [h0] at hperm
        exact hperm.symm.eq_nil
      rw [if_pos h0, if_pos h02]
    · have h02 : fs2 ≠ [] := by
        intro hc
        rw [hc] at hperm
        exact h0 hperm.eq_nil
      rw [if_neg h0, if_neg h02, hsum]
      by_cases htot : (fs2.map Fund.fmv).sum = 0
      · rw [if_pos htot, if_pos htot]
      · rw [if_neg htot, if_neg htot]
        have hfp : (fs1.map (fun f =>
              (meanPy f.roi_data).map
                (fun m => m * (f.fmv / (fs2.map Fund.fmv).sum)))).Perm
            (fs2.map (fun f =>
              (meanPy f.roi_data).map
                (fun m => m * (f.fmv / (fs2.map Fund.fmv).sum)))) :=
          hperm.map _
        rw [foldr_addN_perm (some 0) hfp]
  · intro p w hw
    by_cases hne : p.portfolio = []
    · rw [compPfWeights_empty p hne] at hw
      exact absurd hw (by simp)
    · by_cases htot : p.fmvColumn.sum = 0
      · rw [compPfWeights_zeroDiv p hne htot] at hw
        exact absurd hw (by simp)
      · rw [compPfWeights_ok p hne htot] at hw
        have hwv : p.portfolio.map (fun r => r.FMV / p.fmvColumn.sum) = w := by
          simpa using hw
        have h1 : (p.compPfMeans).2.compPfWeights
            = ({ (p.compPfMeans).2 with pf_weights := some w },
               Except.ok w) := by
          rw [← hwv]
          exact compPfWeights_ok (p.compPfMeans).2 hne htot
        have hval : (p.compPfExpectedRoi).2
            = weightedMean (p.compPfMeans).1 w := by
          simp only [Portfolio.compPfExpectedRoi, h1]
          cases hcase : weightedMean (p.compPfMeans).1 w with
          | error e => simp only [hcase]
          | ok v => simp only [hcase]
        refine ⟨hval, ?_⟩
        intro halign
        rw [hval]
        apply weightedMean_aligned
        show (p.pf_roi_data.map (fun c => meanPy c.2)).length = w.length
        rw [← hwv, List.length_map, List.length_map, halign]

/-- Witness for `compPfExpectedRoi_order_invariant`: the two concrete
funds `fA` and `fB` added in both orders. -/
theorem compPfExpectedRoi_order_invariant_witness :
    ([fA, fB].Perm [fB, fA])
    ∧ ([fA, fB].map Fund.name).Nodup
    ∧ (∀ f ∈ [fA, fB], f.roi_data.length = 3)
    ∧ ((buildFrom (Portfolio.init "P" 2020) [fA, fB]).1.compPfExpectedRoi).2
        = ((buildFrom (Portfolio.init "P" 2020) [fB, fA]).1.compPfExpectedRoi).2 := by
  have hperm : [fA, fB].Perm [fB, fA] := List.Perm.swap fB fA []
  have hnd : ([fA, fB].map Fund.name).Nodup := by
    simp [fA, fB, Fund.name]
  have hlen : ∀ f ∈ [fA, fB], f.roi_data.length = 3 := by
    intro f hf
    rcases List.mem_cons.mp hf with h | h
    · rw [h]; rfl
    · rcases List.mem_cons.mp h with h1 | h1
      · rw [h1]; rfl
      · exact absurd h1 (List.not_mem_nil f)
  exact ⟨hperm, hnd, hlen,
    (compPfExpectedRoi_order_invariant [fA, fB] [fB, fA] 3 "P" 2020
      hperm hnd hlen).1⟩
